import Mathlib

/-!
Verification of the startup-options calculation engine.

The engine's numbers (JavaScript `number`) are modelled as exact rationals
(`ℚ`); decimal literals such as `0.0765` denote the exact decimal rational.
Optional TypeScript parameters are modelled as `Option ℚ`, optional result
fields as `Option` fields, and enum string unions as inductive types.
-/

namespace StartupOptions

/-- `type OptionType = 'ISO' | 'NSO'`. -/
inductive OptionType
  | ISO
  | NSO
deriving DecidableEq, Repr

/-- `type PreferredType = 'non-participating' | 'participating'`. -/
inductive PreferredType
  | nonParticipating
  | participating
deriving DecidableEq, Repr

/-- `type CompanyStage = 'Pre-Seed' | 'Seed' | 'Series A' | 'Series B' | 'Series C+'`. -/
inductive CompanyStage
  | preSeed
  | seed
  | seriesA
  | seriesB
  | seriesCPlus
deriving DecidableEq, Repr

/-- `interface DilutionRound` from the types module. -/
structure DilutionRound where
  id : String
  name : String
  dilutionPercent : ℚ
deriving DecidableEq, Repr

/-- `interface PreferredRound` from the types module. -/
structure PreferredRound where
  id : String
  name : String
  investedAmount : ℚ
  liquidationMultiple : ℚ
  preferredType : PreferredType
  ownershipPercent : ℚ
deriving DecidableEq, Repr

/-- `interface ExitScenario` from the types module. -/
structure ExitScenario where
  name : String
  multiple : ℚ
  probability : ℚ
deriving DecidableEq, Inhabited, Repr

/-- `interface WaterfallResult` from the types module. -/
structure WaterfallResult where
  exitValue : ℚ
  preferredPayout : ℚ
  commonPool : ℚ
  employeeOwnershipOfCommon : ℚ
  employeePayout : ℚ
deriving DecidableEq, Repr

/-- The `{ficaTax, ssCapped}` record returned by `calculateFicaTax`. -/
structure FicaResult where
  ficaTax : ℚ
  ssCapped : Bool
deriving DecidableEq, Repr

/-- `interface TaxCalculation`; the branch-specific optional fields are
`Option` values, absent (`none`) in the branch that does not set them. -/
structure TaxCalculation where
  spread : ℚ
  spreadTotal : ℚ
  optionType : OptionType
  amtIncome : Option ℚ
  estimatedAMT : Option ℚ
  ordinaryIncome : Option ℚ
  ordinaryIncomeTax : Option ℚ
  ficaTax : Option ℚ
  ssCapped : Option Bool
  estimatedTaxAtExercise : ℚ
deriving DecidableEq, Repr

/-- `interface OpportunityCostDataPoint`. The loop variable `year` is an
integer in every reachable state, so it is modelled as `ℤ`. -/
structure OpportunityCostDataPoint where
  year : ℤ
  alternativeValue : ℚ
  optionsExpectedValue : ℚ
deriving DecidableEq, Repr

/-- `interface OpportunityCostResult`. -/
structure OpportunityCostResult where
  dataPoints : List OpportunityCostDataPoint
  breakEvenYear : Option ℤ
  finalAlternativeValue : ℚ
  finalOptionsExpectedValue : ℚ
deriving DecidableEq, Repr

/-- `const AMT_RATE = 0.28`. -/
def AMT_RATE : ℚ := 0.28

/-- `const FICA_RATE = 0.0765`. -/
def FICA_RATE : ℚ := 0.0765

/-- `const SS_RATE = 0.062`. -/
def SS_RATE : ℚ := 0.062

/-- `const MEDICARE_RATE = 0.0145`. -/
def MEDICARE_RATE : ℚ := 0.0145

/-- `const SS_WAGE_CAP = 176_100`. -/
def SS_WAGE_CAP : ℚ := 176100

/-- `calculateOwnershipAfterDilution`: compound dilution,
`ownership × (1 - round.dilutionPercent / 100)` folded over the rounds. -/
def calculateOwnershipAfterDilution (initialOwnership : ℚ)
    (dilutionRounds : List DilutionRound) : ℚ :=
  dilutionRounds.foldl
    (fun ownership round => ownership * (1 - round.dilutionPercent / 100))
    initialOwnership

/-- `calculateFicaTax`: FICA tax on the NSO spread, with the Social Security
wage-cap rule.  `annualWages === undefined` is the `none` case. -/
def calculateFicaTax (spreadTotal : ℚ) (annualWages : Option ℚ) : FicaResult :=
  let medicareTax := spreadTotal * MEDICARE_RATE
  match annualWages with
  | none => { ficaTax := spreadTotal * FICA_RATE, ssCapped := false }
  | some annualWages =>
    if SS_WAGE_CAP ≤ annualWages then
      { ficaTax := medicareTax, ssCapped := true }
    else
      let ssableAmount := min spreadTotal (SS_WAGE_CAP - annualWages)
      let ssTax := ssableAmount * SS_RATE
      { ficaTax := ssTax + medicareTax, ssCapped := decide (ssableAmount < spreadTotal) }

/-- Modelled observer for `calculateFicaTax`: the portion of `spreadTotal`
that each branch of the source taxes at the 6.2% Social Security rate
(`SS_RATE`).  In the no-wages branch the full combined FICA rate
`0.0765 = 0.062 + 0.0145` is applied, so the SS-taxable portion is all of
`spreadTotal`; in the wages-over-cap branch only Medicare applies, so it is
`0`; otherwise it is the source's own `ssableAmount`.
`ficaTax_decomposition` below proves this reading against the source. -/
def ssTaxableAmount (spreadTotal : ℚ) (annualWages : Option ℚ) : ℚ :=
  match annualWages with
  | none => spreadTotal
  | some w => if SS_WAGE_CAP ≤ w then 0 else min spreadTotal (SS_WAGE_CAP - w)

/-- `calculateTaxes`: tax implications at exercise (ISO or NSO branch). -/
def calculateTaxes (numberOfOptions strikePrice exerciseFMV : ℚ)
    (optionType : OptionType) (federalTaxBracket : ℚ)
    (annualWages : Option ℚ) : TaxCalculation :=
  let spread := max 0 (exerciseFMV - strikePrice)
  let spreadTotal := spread * numberOfOptions
  match optionType with
  | OptionType.ISO =>
    let estimatedAMT := spreadTotal * AMT_RATE
    { spread := spread
      spreadTotal := spreadTotal
      optionType := OptionType.ISO
      amtIncome := some spreadTotal
      estimatedAMT := some estimatedAMT
      ordinaryIncome := none
      ordinaryIncomeTax := none
      ficaTax := none
      ssCapped := none
      estimatedTaxAtExercise := estimatedAMT }
  | OptionType.NSO =>
    let fica := calculateFicaTax spreadTotal annualWages
    let incomeTax := spreadTotal * federalTaxBracket
    let ordinaryIncomeTax := incomeTax + fica.ficaTax
    { spread := spread
      spreadTotal := spreadTotal
      optionType := OptionType.NSO
      amtIncome := none
      estimatedAMT := none
      ordinaryIncome := some spreadTotal
      ordinaryIncomeTax := some ordinaryIncomeTax
      ficaTax := some fica.ficaTax
      ssCapped := some fica.ssCapped
      estimatedTaxAtExercise := ordinaryIncomeTax }

/-- `DEFAULT_EXIT_SCENARIOS` from the defaults module. -/
def DEFAULT_EXIT_SCENARIOS : List ExitScenario :=
  [ { name := "Failure", multiple := 0, probability := 0.75 },
    { name := "Acqui-hire", multiple := 1.5, probability := 0.10 },
    { name := "Moderate", multiple := 3, probability := 0.08 },
    { name := "Strong", multiple := 5, probability := 0.04 },
    { name := "Exceptional", multiple := 10, probability := 0.025 },
    { name := "Unicorn", multiple := 20, probability := 0.005 } ]

/-- The `{failureProb, unicornProb}` entries of `STAGE_EXIT_ADJUSTMENTS`. -/
structure StageAdjustment where
  failureProb : ℚ
  unicornProb : ℚ
deriving DecidableEq, Repr

/-- `STAGE_EXIT_ADJUSTMENTS` from the defaults module. -/
def STAGE_EXIT_ADJUSTMENTS : CompanyStage → StageAdjustment
  | CompanyStage.preSeed => { failureProb := 0.90, unicornProb := 1.0 }
  | CompanyStage.seed => { failureProb := 0.80, unicornProb := 0.9 }
  | CompanyStage.seriesA => { failureProb := 0.65, unicornProb := 0.7 }
  | CompanyStage.seriesB => { failureProb := 0.45, unicornProb := 0.5 }
  | CompanyStage.seriesCPlus => { failureProb := 0.20, unicornProb := 0.3 }

/-- `getStageAdjustedExitScenarios`.  The source accumulates `totalProb`
imperatively while mapping; since every branch of the map adds exactly the
probability it returns, `totalProb` equals the sum of the mapped
probabilities, which is how it is expressed here.  `baseScenarios[0]` is the
head of the (nonempty) default list. -/
def getStageAdjustedExitScenarios (stage : CompanyStage) : List ExitScenario :=
  let adjustment := STAGE_EXIT_ADJUSTMENTS stage
  let baseScenarios := DEFAULT_EXIT_SCENARIOS
  let baseFailure := baseScenarios.headI.probability
  let targetFailure := adjustment.failureProb
  let successBoost := baseFailure - targetFailure
  let adjustedScenarios := baseScenarios.mapIdx (fun index scenario =>
    if index = 0 then
      { scenario with probability := targetFailure }
    else
      let isUnicorn := scenario.name = "Unicorn" ∨ scenario.name = "Exceptional"
      let boost :=
        if isUnicorn then successBoost * 0.1 * adjustment.unicornProb
        else successBoost * 0.225
      { scenario with probability := scenario.probability + boost })
  let totalProb := (adjustedScenarios.map ExitScenario.probability).sum
  if 0.001 < |totalProb - 1.0| then
    let scale := 1.0 / totalProb
    adjustedScenarios.map (fun s => { s with probability := s.probability * scale })
  else
    adjustedScenarios

/-- One step of the waterfall's first pass (`for (const round of sortedRounds)`),
acting on the state `(remainingValue, preferredPayout)`. -/
def firstPassStep (exitValuation : ℚ) (st : ℚ × ℚ) (round : PreferredRound) : ℚ × ℚ :=
  let preference := round.investedAmount * round.liquidationMultiple
  let proRata := round.ownershipPercent / 100 * exitValuation
  match round.preferredType with
  | PreferredType.nonParticipating =>
    let payout := min st.1 (max preference proRata)
    (st.1 - payout, st.2 + payout)
  | PreferredType.participating =>
    let preferencePayout := min st.1 preference
    (st.1 - preferencePayout, st.2 + preferencePayout)

/-- One step of the waterfall's second pass: participating preferred takes its
pro-rata share of the remainder while any remains. -/
def secondPassStep (st : ℚ × ℚ) (round : PreferredRound) : ℚ × ℚ :=
  if round.preferredType = PreferredType.participating ∧ 0 < st.1 then
    let proRataOfRemainder := round.ownershipPercent / 100 * st.1
    (st.1 - proRataOfRemainder, st.2 + proRataOfRemainder)
  else st

/-- The source's `totalPreferredOwnership` reduce. -/
def totalPreferredOwnership (preferredRounds : List PreferredRound) : ℚ :=
  (preferredRounds.map PreferredRound.ownershipPercent).sum

/-- The source's `employeeOwnershipOfCommon` expression (employee share of the
common pool, as a percentage of common). -/
def employeeOwnershipOfCommonOf (preferredRounds : List PreferredRound)
    (employeeOwnershipPercent : ℚ) : ℚ :=
  let totalCommonOwnership := 100 - totalPreferredOwnership preferredRounds
  if 0 < totalCommonOwnership then
    employeeOwnershipPercent / totalCommonOwnership * 100
  else 0

/-- `calculateWaterfall`: liquidation waterfall for preferred vs common stock.
`sortedRounds` is the input reversed (later rounds senior, paid first);
both passes are left folds over it carrying `(remainingValue, preferredPayout)`. -/
def calculateWaterfall (exitValuation : ℚ) (preferredRounds : List PreferredRound)
    (employeeOwnershipPercent : ℚ) : WaterfallResult :=
  if preferredRounds.length = 0 then
    let employeePayout := employeeOwnershipPercent / 100 * exitValuation
    { exitValue := exitValuation
      preferredPayout := 0
      commonPool := exitValuation
      employeeOwnershipOfCommon := employeeOwnershipPercent
      employeePayout := employeePayout }
  else
    let employeeOwnershipOfCommon :=
      employeeOwnershipOfCommonOf preferredRounds employeeOwnershipPercent
    let sortedRounds := preferredRounds.reverse
    let afterFirst := sortedRounds.foldl (firstPassStep exitValuation) (exitValuation, 0)
    let afterSecond := sortedRounds.foldl secondPassStep afterFirst
    let commonPool := max 0 afterSecond.1
    let employeePayout := employeeOwnershipOfCommon / 100 * commonPool
    { exitValue := exitValuation
      preferredPayout := afterSecond.2
      commonPool := commonPool
      employeeOwnershipOfCommon := employeeOwnershipOfCommon
      employeePayout := employeePayout }

/-- The amount a round claims in the first pass, before the cap by
`remainingValue`: `max(preference, proRata)` for non-participating,
`preference` alone for participating. -/
def pass1Amount (exitValuation : ℚ) (round : PreferredRound) : ℚ :=
  match round.preferredType with
  | PreferredType.nonParticipating =>
    max (round.investedAmount * round.liquidationMultiple)
      (round.ownershipPercent / 100 * exitValuation)
  | PreferredType.participating => round.investedAmount * round.liquidationMultiple

/-- The `remainingValue` component of a first-pass step, as a function of the
remaining value alone. -/
def pass1Rem (exitValuation : ℚ) (rem : ℚ) (round : PreferredRound) : ℚ :=
  rem - min rem (pass1Amount exitValuation round)

/-- The `remainingValue` component of a second-pass step, as a function of the
remaining value alone. -/
def pass2Rem (rem : ℚ) (round : PreferredRound) : ℚ :=
  if round.preferredType = PreferredType.participating ∧ 0 < rem then
    rem - round.ownershipPercent / 100 * rem
  else rem

/-- Per-round validity as the spec's data model states it: nonnegative
ownership, invested amount and liquidation multiple. -/
def RoundNonneg (round : PreferredRound) : Prop :=
  0 ≤ round.ownershipPercent ∧ 0 ≤ round.investedAmount ∧ 0 ≤ round.liquidationMultiple

/-- The `1e15` safety cap of the inverse solver. -/
def SEARCH_CAP : ℚ := 1e15

/-- The doubling loop of `findExitForTargetPayout`
(`while (payout(high) < target) { high *= 2; if (high > 1e15) break; }`),
modelled with explicit fuel: `none` means the fuel ran out before the loop
exited.  `findExitForTargetPayout` supplies fuel proven sufficient for every
input reachable from it (see `growHigh_isSome_of_lt`). -/
def growHigh (targetPayout : ℚ) (preferredRounds : List PreferredRound)
    (ownershipPercent : ℚ) : ℕ → ℚ → Option ℚ
  | 0, _ => none
  | fuel + 1, high =>
    if (calculateWaterfall high preferredRounds ownershipPercent).employeePayout < targetPayout then
      let doubled := high * 2
      if SEARCH_CAP < doubled then some doubled
      else growHigh targetPayout preferredRounds ownershipPercent fuel doubled
    else some high

/-- Fuel sufficient for `growHigh` starting from `high`: one more than the
number of doublings needed to push a positive `high` past the cap. -/
def growHighFuel (high : ℚ) : ℕ :=
  Nat.clog 2 (Nat.ceil (SEARCH_CAP / high) + 2) + 1

/-- Halving the search interval strictly decreases the natural measure
`⌈width / 1000⌉` while the loop guard `width > 1000` holds. -/
lemma bsearchMeasure_halves (low high : ℚ) (h : 1000 < high - low) :
    Nat.ceil ((high - low) / 2 / 1000) < Nat.ceil ((high - low) / 1000) := by
  set w : ℚ := high - low with hw
  have hw1 : (1 : ℚ) < w / 1000 := by
    rw [lt_div_iff₀ (by norm_num : (0:ℚ) < 1000)]
    linarith
  have hk2 : 2 ≤ Nat.ceil (w / 1000) := by
    have h1 : 1 < Nat.ceil (w / 1000) :=
      (Nat.lt_ceil (n := 1) (a := w / 1000)).mpr (by exact_mod_cast hw1)
    omega
  have hle : w / 1000 ≤ (Nat.ceil (w / 1000) : ℚ) := Nat.le_ceil _
  have hstep : Nat.ceil (w / 2 / 1000) ≤ Nat.ceil (w / 1000) - 1 := by
    apply Nat.ceil_le.mpr
    have hcast : ((Nat.ceil (w / 1000) - 1 : ℕ) : ℚ) = (Nat.ceil (w / 1000) : ℚ) - 1 := by
      push_cast [Nat.cast_sub (by omega : 1 ≤ Nat.ceil (w / 1000))]
      ring
    rw [hcast]
    have h2 : (2 : ℚ) ≤ (Nat.ceil (w / 1000) : ℚ) := by exact_mod_cast hk2
    rw [div_div]
    rw [div_le_iff₀ (by norm_num : (0:ℚ) < 2 * 1000)] at *
    rw [div_le_iff₀ (by norm_num : (0:ℚ) < 1000)] at hle
    nlinarith
  omega

/-- The binary-search loop of `findExitForTargetPayout`
(`while (high - low > 1000) { ... }`); terminates because each iteration
halves the interval width. -/
def bsearchExit (targetPayout : ℚ) (preferredRounds : List PreferredRound)
    (ownershipPercent : ℚ) (low high : ℚ) : ℚ :=
  if h : 1000 < high - low then
    let mid := (low + high) / 2
    if (calculateWaterfall mid preferredRounds ownershipPercent).employeePayout < targetPayout then
      bsearchExit targetPayout preferredRounds ownershipPercent mid high
    else
      bsearchExit targetPayout preferredRounds ownershipPercent low mid
  else high
termination_by Nat.ceil ((high - low) / 1000)
decreasing_by
  · have heq : high - (low + high) / 2 = (high - low) / 2 := by ring
    rw [heq]
    exact bsearchMeasure_halves low high h
  · have heq : (low + high) / 2 - low = (high - low) / 2 := by ring
    rw [heq]
    exact bsearchMeasure_halves low high h

/-- `findExitForTargetPayout`: exit valuation needed for a target employee
payout.  Closed form without preferred rounds or without positive ownership;
otherwise doubling search for an upper bound followed by binary search.
Returns `none` only if the doubling loop's fuel runs out, which
`findExitForTargetPayout_isSome` shows never happens for `targetPayout ≥ 0`. -/
def findExitForTargetPayout (targetPayout : ℚ) (preferredRounds : List PreferredRound)
    (ownershipPercent : ℚ) : Option ℚ :=
  if preferredRounds.length = 0 ∨ ownershipPercent ≤ 0 then
    some (if 0 < ownershipPercent then targetPayout / (ownershipPercent / 100) else 0)
  else
    let high := targetPayout * 100
    match growHigh targetPayout preferredRounds ownershipPercent (growHighFuel high) high with
    | none => none
    | some grown => some (bsearchExit targetPayout preferredRounds ownershipPercent 0 grown)

/-- `calculateExitValue`: exit value at a given multiple. -/
def calculateExitValue (ownershipPercent companyValuation exitMultiple : ℚ) : ℚ :=
  ownershipPercent / 100 * companyValuation * exitMultiple

/-- `calculateAlternativeInvestmentValue`: compound growth
`principal × (1 + r)^years`; the loop of the opportunity-cost projector only
evaluates it at natural-number years. -/
def calculateAlternativeInvestmentValue (principal annualReturn : ℚ) (years : ℕ) : ℚ :=
  principal * (1 + annualReturn) ^ years

/-- `calculateOptionsExpectedValueAtYear`: timing-discounted expected profit;
0 before year 3, then a linear ramp `min(1, (year - 2) / 8)` times the
scenario-weighted expected profit. -/
def calculateOptionsExpectedValueAtYear (ownershipPercent companyValuation exerciseCost : ℚ)
    (year : ℕ) (scenarios : List ExitScenario) : ℚ :=
  if (year : ℚ) < 3 then 0
  else
    let cumulativeExitProb := min 1 (((year : ℚ) - 2) / 8)
    let expectedExitValue := scenarios.foldl
      (fun sum scenario =>
        sum + scenario.probability *
          max 0 (calculateExitValue ownershipPercent companyValuation scenario.multiple - exerciseCost))
      0
    cumulativeExitProb * expectedExitValue

/-- The `dataPoints` array built by `calculateOpportunityCostComparison`'s
`for (let year = 0; year <= timeHorizonYears; year++)` loop; empty when
`timeHorizonYears < 0`. -/
def opportunityCostDataPoints (exerciseCost ownershipPercent companyValuation
    alternativeReturnRate : ℚ) (timeHorizonYears : ℤ) : List OpportunityCostDataPoint :=
  (List.range (timeHorizonYears + 1).toNat).map (fun (year : ℕ) =>
    { year := (year : ℤ)
      alternativeValue := calculateAlternativeInvestmentValue exerciseCost alternativeReturnRate year
      optionsExpectedValue := calculateOptionsExpectedValueAtYear ownershipPercent companyValuation
        exerciseCost year DEFAULT_EXIT_SCENARIOS })

/-- `calculateOpportunityCostComparison`.  The source reads
`dataPoints[dataPoints.length - 1]` unconditionally; on an empty array that
dereferences `undefined` and throws, modelled here as `none`.  The source's
in-loop tracking of the first break-even year equals `find?` over the
year-ascending list. -/
def calculateOpportunityCostComparison (exerciseCost ownershipPercent companyValuation
    alternativeReturnRate : ℚ) (timeHorizonYears : ℤ) : Option OpportunityCostResult :=
  let dataPoints := opportunityCostDataPoints exerciseCost ownershipPercent companyValuation
    alternativeReturnRate timeHorizonYears
  let breakEvenYear :=
    (dataPoints.find? (fun p =>
      decide (p.alternativeValue - exerciseCost < p.optionsExpectedValue))).map
      OpportunityCostDataPoint.year
  match dataPoints.getLast? with
  | none => none
  | some finalPoint =>
    some { dataPoints := dataPoints
           breakEvenYear := breakEvenYear
           finalAlternativeValue := finalPoint.alternativeValue
           finalOptionsExpectedValue := finalPoint.optionsExpectedValue }

/-! ### Helper lemmas -/

lemma rat_abs_ite (q : ℚ) : |q| = if 0 ≤ q then q else -q := by
  rcases le_or_lt 0 q with h | h
  · rw [abs_of_nonneg h, if_pos h]
  · rw [abs_of_neg h, if_neg (not_le.mpr h)]

lemma firstPassStep_fst (V : ℚ) (st : ℚ × ℚ) (r : PreferredRound) :
    (firstPassStep V st r).1 = pass1Rem V st.1 r := by
  cases hr : r.preferredType <;>
    simp [firstPassStep, pass1Rem, pass1Amount, hr]

lemma secondPassStep_fst (st : ℚ × ℚ) (r : PreferredRound) :
    (secondPassStep st r).1 = pass2Rem st.1 r := by
  by_cases hc : r.preferredType = PreferredType.participating ∧ 0 < st.1 <;>
    simp [secondPassStep, pass2Rem, hc]

lemma foldl_firstPass_fst (V : ℚ) (L : List PreferredRound) (st : ℚ × ℚ) :
    (L.foldl (firstPassStep V) st).1 = L.foldl (pass1Rem V) st.1 := by
  induction L generalizing st with
  | nil => rfl
  | cons r T ih =>
    rw [List.foldl_cons, List.foldl_cons, ih, firstPassStep_fst]

lemma foldl_secondPass_fst (L : List PreferredRound) (st : ℚ × ℚ) :
    (L.foldl secondPassStep st).1 = L.foldl pass2Rem st.1 := by
  induction L generalizing st with
  | nil => rfl
  | cons r T ih =>
    rw [List.foldl_cons, List.foldl_cons, ih, secondPassStep_fst]

lemma firstPassStep_sum (V : ℚ) (st : ℚ × ℚ) (r : PreferredRound) :
    (firstPassStep V st r).1 + (firstPassStep V st r).2 = st.1 + st.2 := by
  cases hr : r.preferredType <;>
    simp [firstPassStep, hr]

lemma secondPassStep_sum (st : ℚ × ℚ) (r : PreferredRound) :
    (secondPassStep st r).1 + (secondPassStep st r).2 = st.1 + st.2 := by
  by_cases hc : r.preferredType = PreferredType.participating ∧ 0 < st.1 <;>
    simp [secondPassStep, hc]

lemma foldl_firstPass_sum (V : ℚ) (L : List PreferredRound) (st : ℚ × ℚ) :
    (L.foldl (firstPassStep V) st).1 + (L.foldl (firstPassStep V) st).2 = st.1 + st.2 := by
  induction L generalizing st with
  | nil => rfl
  | cons r T ih =>
    rw [List.foldl_cons, ih, firstPassStep_sum]

lemma foldl_secondPass_sum (L : List PreferredRound) (st : ℚ × ℚ) :
    (L.foldl secondPassStep st).1 + (L.foldl secondPassStep st).2 = st.1 + st.2 := by
  induction L generalizing st with
  | nil => rfl
  | cons r T ih =>
    rw [List.foldl_cons, ih, secondPassStep_sum]

lemma pass1Rem_nonneg (V rem : ℚ) (r : PreferredRound) : 0 ≤ pass1Rem V rem r :=
  sub_nonneg.mpr (min_le_left _ _)

lemma foldl_pass1Rem_nonneg (V : ℚ) (L : List PreferredRound) (rem : ℚ) (h : 0 ≤ rem) :
    0 ≤ L.foldl (pass1Rem V) rem := by
  induction L generalizing rem with
  | nil => exact h
  | cons r T ih =>
    rw [List.foldl_cons]
    exact ih _ (pass1Rem_nonneg V rem r)

lemma pass2Rem_nonneg (rem : ℚ) (r : PreferredRound) (hr : r.ownershipPercent ≤ 100)
    (h : 0 ≤ rem) : 0 ≤ pass2Rem rem r := by
  unfold pass2Rem
  split_ifs with hc
  · have heq : rem - r.ownershipPercent / 100 * rem = rem * (1 - r.ownershipPercent / 100) := by
      ring
    rw [heq]
    exact mul_nonneg h (by linarith)
  · exact h

lemma foldl_pass2Rem_nonneg (L : List PreferredRound) (rem : ℚ)
    (hL : ∀ r ∈ L, r.ownershipPercent ≤ 100) (h : 0 ≤ rem) :
    0 ≤ L.foldl pass2Rem rem := by
  induction L generalizing rem with
  | nil => exact h
  | cons r T ih =>
    rw [List.foldl_cons]
    exact ih _ (fun x hx => hL x (List.mem_cons_of_mem r hx))
      (pass2Rem_nonneg rem r (hL r (List.mem_cons_self r T)) h)

/-- With a nonnegative exit valuation and per-round ownership at most 100%,
the waterfall distributes the exit value exactly. -/
lemma waterfall_exact (V : ℚ) (rounds : List PreferredRound) (own : ℚ)
    (hV : 0 ≤ V) (hρ : ∀ r ∈ rounds, r.ownershipPercent ≤ 100) :
    (calculateWaterfall V rounds own).preferredPayout
      + (calculateWaterfall V rounds own).commonPool = V := by
  by_cases hlen : rounds.length = 0
  · simp [calculateWaterfall, hlen]
  · have hρ' : ∀ r ∈ rounds.reverse, r.ownershipPercent ≤ 100 := by
      intro r hr
      exact hρ r (List.mem_reverse.mp hr)
    have hrem1 : 0 ≤ (rounds.reverse.foldl (firstPassStep V) (V, 0)).1 := by
      rw [foldl_firstPass_fst]
      exact foldl_pass1Rem_nonneg V _ _ hV
    have hrem2 : 0 ≤ (rounds.reverse.foldl secondPassStep
        (rounds.reverse.foldl (firstPassStep V) (V, 0))).1 := by
      rw [foldl_secondPass_fst]
      exact foldl_pass2Rem_nonneg _ _ hρ' hrem1
    have hsum : (rounds.reverse.foldl secondPassStep
          (rounds.reverse.foldl (firstPassStep V) (V, 0))).1
        + (rounds.reverse.foldl secondPassStep
          (rounds.reverse.foldl (firstPassStep V) (V, 0))).2 = V := by
      rw [foldl_secondPass_sum, foldl_firstPass_sum]
      ring
    simp only [calculateWaterfall, hlen, if_false]
    rw [max_eq_right hrem2]
    linarith

/-! ### C1: waterfall conservation and nonnegative remaining value -/

/-- C1 (amended): for `exitValuation ≥ 0` and rounds whose `ownershipPercent`
is at most 100, `preferredPayout + commonPool ≤ exitValuation`, and the
tracked `remainingValue` is nonnegative after every step of both allocation
passes (states indexed by prefixes of the processing order). -/
theorem waterfall_conservation (V : ℚ) (rounds : List PreferredRound) (own : ℚ)
    (hV : 0 ≤ V) (hρ : ∀ r ∈ rounds, r.ownershipPercent ≤ 100) :
    (calculateWaterfall V rounds own).preferredPayout
        + (calculateWaterfall V rounds own).commonPool ≤ V
      ∧ (∀ k : ℕ, 0 ≤ (((rounds.reverse.take k)).foldl (firstPassStep V) (V, 0)).1)
      ∧ (∀ k : ℕ, 0 ≤ (((rounds.reverse.take k)).foldl secondPassStep
          (rounds.reverse.foldl (firstPassStep V) (V, 0))).1) := by
  have hρ' : ∀ r ∈ rounds.reverse, r.ownershipPercent ≤ 100 := by
    intro r hr
    exact hρ r (List.mem_reverse.mp hr)
  refine ⟨le_of_eq (waterfall_exact V rounds own hV hρ), ?_, ?_⟩
  · intro k
    rw [foldl_firstPass_fst]
    exact foldl_pass1Rem_nonneg V _ _ hV
  · intro k
    rw [foldl_secondPass_fst]
    refine foldl_pass2Rem_nonneg _ _ (fun r hr => hρ' r (List.take_subset k _ hr)) ?_
    rw [foldl_firstPass_fst]
    exact foldl_pass1Rem_nonneg V _ _ hV

/-- C1 witness: the conservation-and-nonnegativity theorem instantiated at a
concrete valuation and round list. -/
theorem waterfall_conservation_witness :
    ((0:ℚ) ≤ 40000000
        ∧ (∀ r ∈ [PreferredRound.mk "r1" "Series A" 10000000 1
            PreferredType.nonParticipating 20], r.ownershipPercent ≤ 100))
      ∧ ((calculateWaterfall 40000000
            [PreferredRound.mk "r1" "Series A" 10000000 1 PreferredType.nonParticipating 20]
            (1/10)).preferredPayout
          + (calculateWaterfall 40000000
            [PreferredRound.mk "r1" "Series A" 10000000 1 PreferredType.nonParticipating 20]
            (1/10)).commonPool ≤ 40000000
        ∧ (∀ k : ℕ, 0 ≤ ((([PreferredRound.mk "r1" "Series A" 10000000 1
            PreferredType.nonParticipating 20].reverse.take k)).foldl
            (firstPassStep 40000000) (40000000, 0)).1)
        ∧ (∀ k : ℕ, 0 ≤ ((([PreferredRound.mk "r1" "Series A" 10000000 1
            PreferredType.nonParticipating 20].reverse.take k)).foldl secondPassStep
            ([PreferredRound.mk "r1" "Series A" 10000000 1
              PreferredType.nonParticipating 20].reverse.foldl
              (firstPassStep 40000000) (40000000, 0))).1)) := by
  refine ⟨⟨by norm_num, ?_⟩, ?_⟩
  · intro r hr
    rw [List.mem_singleton] at hr
    rw [hr]
    norm_num
  · refine waterfall_conservation 40000000 _ (1/10) (by norm_num) ?_
    intro r hr
    rw [List.mem_singleton] at hr
    rw [hr]
    norm_num

/-- C1 counterexample: with a participating round owning 150% (outside the
data model's 0–100 range, but allowed by the claim's "every list of preferred
rounds"), the second pass pays out more than the exit value:
`preferredPayout + commonPool = 150 > 100 = exitValuation`, and the tracked
remaining value reaches −50. -/
theorem waterfall_conservation_counterexample :
    100 < (calculateWaterfall 100
        [PreferredRound.mk "r1" "Series A" 0 1 PreferredType.participating 150]
        1).preferredPayout
      + (calculateWaterfall 100
        [PreferredRound.mk "r1" "Series A" 0 1 PreferredType.participating 150]
        1).commonPool := by
  norm_num [calculateWaterfall, firstPassStep, secondPassStep,
    employeeOwnershipOfCommonOf, totalPreferredOwnership]

/-! ### C9: exact distribution -/

/-- C9: for `exitValuation ≥ 0` and rounds with `ownershipPercent` in
`[0, 100]`, the waterfall distributes the exit value exactly:
`preferredPayout + commonPool = exitValuation`; with no rounds,
`preferredPayout = 0` and `commonPool = exitValuation`. -/
theorem waterfall_distributes_exactly (V : ℚ) (rounds : List PreferredRound) (own : ℚ)
    (hV : 0 ≤ V)
    (hρ : ∀ r ∈ rounds, 0 ≤ r.ownershipPercent ∧ r.ownershipPercent ≤ 100) :
    (calculateWaterfall V rounds own).preferredPayout
        + (calculateWaterfall V rounds own).commonPool = V
      ∧ (rounds = [] →
          (calculateWaterfall V rounds own).preferredPayout = 0
            ∧ (calculateWaterfall V rounds own).commonPool = V) := by
  constructor
  · exact waterfall_exact V rounds own hV (fun r hr => (hρ r hr).2)
  · intro hnil
    subst hnil
    simp [calculateWaterfall]

/-- C9 witness: exact distribution at a concrete valuation, round list and
ownership, including the empty-rounds clause. -/
theorem waterfall_distributes_exactly_witness :
    ((0:ℚ) ≤ 40000000
        ∧ (∀ r ∈ [PreferredRound.mk "r1" "Series A" 10000000 1
            PreferredType.participating 20],
            0 ≤ r.ownershipPercent ∧ r.ownershipPercent ≤ 100))
      ∧ ((calculateWaterfall 40000000
            [PreferredRound.mk "r1" "Series A" 10000000 1 PreferredType.participating 20]
            (1/10)).preferredPayout
          + (calculateWaterfall 40000000
            [PreferredRound.mk "r1" "Series A" 10000000 1 PreferredType.participating 20]
            (1/10)).commonPool = 40000000
        ∧ ([PreferredRound.mk "r1" "Series A" 10000000 1 PreferredType.participating 20]
              = ([] : List PreferredRound) →
            (calculateWaterfall 40000000
              [PreferredRound.mk "r1" "Series A" 10000000 1 PreferredType.participating 20]
              (1/10)).preferredPayout = 0
              ∧ (calculateWaterfall 40000000
                [PreferredRound.mk "r1" "Series A" 10000000 1 PreferredType.participating 20]
                (1/10)).commonPool = 40000000)) := by
  refine ⟨⟨by norm_num, ?_⟩, ?_⟩
  · intro r hr
    rw [List.mem_singleton] at hr
    rw [hr]
    norm_num
  · refine waterfall_distributes_exactly 40000000 _ (1/10) (by norm_num) ?_
    intro r hr
    rw [List.mem_singleton] at hr
    rw [hr]
    norm_num

/-! ### C6: dilution never increases ownership -/

lemma dilution_foldl_eq_mul (x : ℚ) (L : List DilutionRound) :
    calculateOwnershipAfterDilution x L
      = x * (L.map (fun r => 1 - r.dilutionPercent / 100)).prod := by
  unfold calculateOwnershipAfterDilution
  induction L generalizing x with
  | nil => simp
  | cons r T ih =>
    rw [List.foldl_cons, ih, List.map_cons, List.prod_cons]
    ring

lemma retention_bounds (L : List DilutionRound)
    (hL : ∀ r ∈ L, 0 ≤ r.dilutionPercent ∧ r.dilutionPercent ≤ 100) :
    0 ≤ (L.map (fun r => 1 - r.dilutionPercent / 100)).prod
      ∧ (L.map (fun r => 1 - r.dilutionPercent / 100)).prod ≤ 1 := by
  induction L with
  | nil => simp
  | cons r T ih =>
    obtain ⟨hd0, hd100⟩ := hL r (List.mem_cons_self r T)
    obtain ⟨ht0, ht1⟩ := ih (fun x hx => hL x (List.mem_cons_of_mem r hx))
    have ha0 : 0 ≤ 1 - r.dilutionPercent / 100 := by linarith
    have ha1 : 1 - r.dilutionPercent / 100 ≤ 1 := by linarith
    rw [List.map_cons, List.prod_cons]
    refine ⟨mul_nonneg ha0 ht0, ?_⟩
    nlinarith

lemma unit_interval_mul_eq_one {a b : ℚ} (_ha0 : 0 ≤ a) (ha1 : a ≤ 1)
    (hb0 : 0 ≤ b) (hb1 : b ≤ 1) : a * b = 1 ↔ a = 1 ∧ b = 1 := by
  constructor
  · intro h
    have hb : b = 1 := le_antisymm hb1 (by nlinarith)
    have ha : a = 1 := by
      rw [hb, mul_one] at h
      exact h
    exact ⟨ha, hb⟩
  · rintro ⟨ha, hb⟩
    rw [ha, hb, mul_one]

lemma retention_eq_one_iff (L : List DilutionRound)
    (hL : ∀ r ∈ L, 0 ≤ r.dilutionPercent ∧ r.dilutionPercent ≤ 100) :
    (L.map (fun r => 1 - r.dilutionPercent / 100)).prod = 1
      ↔ ∀ r ∈ L, r.dilutionPercent = 0 := by
  induction L with
  | nil => simp
  | cons r T ih =>
    obtain ⟨hd0, hd100⟩ := hL r (List.mem_cons_self r T)
    have hT := fun x hx => hL x (List.mem_cons_of_mem r hx)
    obtain ⟨ht0, ht1⟩ := retention_bounds T hT
    rw [List.map_cons, List.prod_cons,
      unit_interval_mul_eq_one (by linarith) (by linarith) ht0 ht1, ih hT]
    constructor
    · rintro ⟨ha, hall⟩ x hx
      rcases List.mem_cons.mp hx with hx | hx
      · subst hx
        linarith
      · exact hall x hx
    · intro hall
      refine ⟨?_, fun x hx => hall x (List.mem_cons_of_mem r hx)⟩
      have := hall r (List.mem_cons_self r T)
      rw [this]
      norm_num

/-- C6 (amended): for positive initial ownership and dilution percentages in
`[0, 100]`, compound dilution never increases ownership, with equality iff the
round list is empty or every round dilutes by 0%. -/
theorem dilution_never_increases (x : ℚ) (L : List DilutionRound) (hx : 0 < x)
    (hL : ∀ r ∈ L, 0 ≤ r.dilutionPercent ∧ r.dilutionPercent ≤ 100) :
    calculateOwnershipAfterDilution x L ≤ x
      ∧ (calculateOwnershipAfterDilution x L = x
          ↔ L = [] ∨ ∀ r ∈ L, r.dilutionPercent = 0) := by
  obtain ⟨hp0, hp1⟩ := retention_bounds L hL
  rw [dilution_foldl_eq_mul]
  constructor
  · nlinarith
  · have hmul : x * (L.map (fun r => 1 - r.dilutionPercent / 100)).prod = x
        ↔ (L.map (fun r => 1 - r.dilutionPercent / 100)).prod = 1 := by
      constructor
      · intro h
        have h1 : x * (L.map (fun r => 1 - r.dilutionPercent / 100)).prod = x * 1 := by
          rw [mul_one]
          exact h
        exact mul_left_cancel₀ (ne_of_gt hx) h1
      · intro h
        rw [h, mul_one]
    rw [hmul, retention_eq_one_iff L hL]
    constructor
    · intro h
      exact Or.inr h
    · rintro (h | h)
      · subst h
        intro r hr
        exact absurd hr (List.not_mem_nil r)
      · exact h

/-- C6 witness: strict decrease and the equality characterization at a
concrete positive ownership and one 20% round. -/
theorem dilution_never_increases_witness :
    ((0:ℚ) < 5
        ∧ (∀ r ∈ [DilutionRound.mk "d1" "Seed" 20],
            0 ≤ r.dilutionPercent ∧ r.dilutionPercent ≤ 100))
      ∧ (calculateOwnershipAfterDilution 5 [DilutionRound.mk "d1" "Seed" 20] ≤ 5
        ∧ (calculateOwnershipAfterDilution 5 [DilutionRound.mk "d1" "Seed" 20] = 5
            ↔ [DilutionRound.mk "d1" "Seed" 20] = []
              ∨ ∀ r ∈ [DilutionRound.mk "d1" "Seed" 20], r.dilutionPercent = 0)) := by
  refine ⟨⟨by norm_num, ?_⟩, ?_⟩
  · intro r hr
    rw [List.mem_singleton] at hr
    rw [hr]
    norm_num
  · refine dilution_never_increases 5 _ (by norm_num) ?_
    intro r hr
    rw [List.mem_singleton] at hr
    rw [hr]
    norm_num

/-- C6 counterexample: the claim's "every initial ownership" fails.  With
negative initial ownership `-10` a 50% round increases ownership to `-5`, and
with zero initial ownership equality holds even though the single round
dilutes by 50% (so the claimed "equality iff empty or all-zero" is false). -/
theorem dilution_counterexample :
    ¬ (calculateOwnershipAfterDilution (-10) [DilutionRound.mk "d1" "Seed" 50] ≤ -10)
      ∧ (calculateOwnershipAfterDilution 0 [DilutionRound.mk "d1" "Seed" 50] = 0
        ∧ ¬ ([DilutionRound.mk "d1" "Seed" 50] = ([] : List DilutionRound)
              ∨ ∀ r ∈ [DilutionRound.mk "d1" "Seed" 50], r.dilutionPercent = 0)) := by
  refine ⟨by norm_num [calculateOwnershipAfterDilution],
    by norm_num [calculateOwnershipAfterDilution], ?_⟩
  rintro (h | h)
  · exact absurd h (by simp)
  · have := h _ (List.mem_singleton_self _)
    norm_num at this

/-! ### C4: NSO ordinary income tax composition -/

/-- C4 (amended): in every NSO computation `ordinaryIncomeTax` is
`spreadTotal × federalTaxBracket + ficaTax` (the income-tax and FICA parts
combined, as the type's own comment documents) and `estimatedTaxAtExercise`
equals that same total; concretely for 10000 options at strike $1, FMV $5,
bracket 0.32 and no wages: `ordinaryIncomeTax = $15,860` (not $12,800),
`ficaTax = $3,060`, `estimatedTaxAtExercise = $15,860`. -/
theorem nso_ordinary_income_tax (n strike fmv bracket : ℚ) (wages : Option ℚ) :
    ((calculateTaxes n strike fmv OptionType.NSO bracket wages).ordinaryIncomeTax
        = some ((calculateTaxes n strike fmv OptionType.NSO bracket wages).spreadTotal * bracket
          + (calculateFicaTax
              (calculateTaxes n strike fmv OptionType.NSO bracket wages).spreadTotal
              wages).ficaTax)
      ∧ (calculateTaxes n strike fmv OptionType.NSO bracket wages).estimatedTaxAtExercise
        = (calculateTaxes n strike fmv OptionType.NSO bracket wages).spreadTotal * bracket
          + (calculateFicaTax
              (calculateTaxes n strike fmv OptionType.NSO bracket wages).spreadTotal
              wages).ficaTax)
      ∧ (calculateTaxes 10000 1 5 OptionType.NSO 0.32 none).ordinaryIncomeTax = some 15860
      ∧ (calculateTaxes 10000 1 5 OptionType.NSO 0.32 none).ficaTax = some 3060
      ∧ (calculateTaxes 10000 1 5 OptionType.NSO 0.32 none).estimatedTaxAtExercise = 15860 := by
  refine ⟨⟨rfl, rfl⟩, ?_, ?_, ?_⟩ <;>
    norm_num [calculateTaxes, calculateFicaTax, FICA_RATE]

/-- C4 counterexample: at the claim's own concrete scenario the returned
`ordinaryIncomeTax` is not `spreadTotal × federalTaxBracket = $12,800`; the
code folds the FICA tax into it. -/
theorem nso_ordinary_income_tax_counterexample :
    (calculateTaxes 10000 1 5 OptionType.NSO 0.32 none).spreadTotal = 40000
      ∧ (calculateTaxes 10000 1 5 OptionType.NSO 0.32 none).ordinaryIncomeTax
          ≠ some (40000 * 0.32) := by
  norm_num [calculateTaxes, calculateFicaTax, FICA_RATE]

/-! ### C8: the ssCapped flag -/

/-- The FICA tax always decomposes as Social Security on the SS-taxable
amount plus Medicare on the full spread, which validates `ssTaxableAmount`
as the canonical "portion of spreadTotal taxed at the SS rate". -/
lemma ficaTax_decomposition (s : ℚ) (w : Option ℚ) :
    (calculateFicaTax s w).ficaTax = ssTaxableAmount s w * SS_RATE + s * MEDICARE_RATE := by
  cases w with
  | none =>
    show s * FICA_RATE = s * SS_RATE + s * MEDICARE_RATE
    norm_num [FICA_RATE, SS_RATE, MEDICARE_RATE]
    ring
  | some w =>
    by_cases hc : SS_WAGE_CAP ≤ w <;>
      simp [calculateFicaTax, ssTaxableAmount, hc]

lemma ssCapped_fica_iff (s : ℚ) (w : Option ℚ) (hs : 0 < s) :
    (calculateFicaTax s w).ssCapped = true ↔ ssTaxableAmount s w < s := by
  cases w with
  | none =>
    simp [calculateFicaTax, ssTaxableAmount]
  | some w =>
    by_cases hc : SS_WAGE_CAP ≤ w
    · have h1 : (calculateFicaTax s (some w)).ssCapped = true := by
        simp [calculateFicaTax, hc]
      have h2 : ssTaxableAmount s (some w) = 0 := by
        simp [ssTaxableAmount, hc]
      rw [h1, h2]
      simp [hs]
    · simp [calculateFicaTax, ssTaxableAmount, hc]

/-- C8 (amended): in every NSO computation with positive `spreadTotal`, the
`ssCapped` flag is true exactly when the SS-taxable amount is smaller than
`spreadTotal`.  (With `spreadTotal = 0` and wages at or above the cap the flag
is true although nothing was capped; see the counterexample.) -/
theorem ssCapped_iff_taxable_lt (n strike fmv bracket : ℚ) (wages : Option ℚ)
    (hpos : 0 < (calculateTaxes n strike fmv OptionType.NSO bracket wages).spreadTotal) :
    (calculateTaxes n strike fmv OptionType.NSO bracket wages).ssCapped = some true
      ↔ ssTaxableAmount
          (calculateTaxes n strike fmv OptionType.NSO bracket wages).spreadTotal wages
        < (calculateTaxes n strike fmv OptionType.NSO bracket wages).spreadTotal := by
  have hcap : (calculateTaxes n strike fmv OptionType.NSO bracket wages).ssCapped
      = some (calculateFicaTax
          (calculateTaxes n strike fmv OptionType.NSO bracket wages).spreadTotal wages).ssCapped :=
    rfl
  rw [hcap, Option.some_inj]
  exact ssCapped_fica_iff _ wages hpos

/-- C8 witness: flag and characterization at a concrete capped NSO exercise
(wages exactly at the cap, positive spread). -/
theorem ssCapped_iff_taxable_lt_witness :
    (0 < (calculateTaxes 10000 1 5 OptionType.NSO 0.32 (some 176100)).spreadTotal)
      ∧ ((calculateTaxes 10000 1 5 OptionType.NSO 0.32 (some 176100)).ssCapped = some true
        ↔ ssTaxableAmount
            (calculateTaxes 10000 1 5 OptionType.NSO 0.32 (some 176100)).spreadTotal
            (some 176100)
          < (calculateTaxes 10000 1 5 OptionType.NSO 0.32 (some 176100)).spreadTotal) :=
  ⟨by norm_num [calculateTaxes], ssCapped_iff_taxable_lt 10000 1 5 0.32 (some 176100)
    (by norm_num [calculateTaxes])⟩

/-- C8 counterexample: with wages above the cap and zero spread the code sets
`ssCapped = true` although the SS-taxable amount (0) is not less than
`spreadTotal` (0), so "true only in that case" fails as stated. -/
theorem ssCapped_counterexample :
    (calculateTaxes 10000 5 5 OptionType.NSO 0.32 (some 200000)).ssCapped = some true
      ∧ ¬ (ssTaxableAmount
            (calculateTaxes 10000 5 5 OptionType.NSO 0.32 (some 200000)).spreadTotal
            (some 200000)
          < (calculateTaxes 10000 5 5 OptionType.NSO 0.32 (some 200000)).spreadTotal) := by
  norm_num [calculateTaxes, calculateFicaTax, ssTaxableAmount, SS_WAGE_CAP]

/-! ### C7: stage-adjusted scenario probabilities -/

/-- C7: for every company stage the stage-adjusted scenario probabilities sum
to 1 within 1e-6 (the renormalization step fires for every stage, making the
sum exactly 1 in exact arithmetic). -/
theorem stage_scenarios_sum_to_one (stage : CompanyStage) :
    |((getStageAdjustedExitScenarios stage).map ExitScenario.probability).sum - 1.0|
      ≤ 1/1000000 := by
  have h : ((getStageAdjustedExitScenarios stage).map ExitScenario.probability).sum = 1 := by
    cases stage <;>
      norm_num +decide [getStageAdjustedExitScenarios, DEFAULT_EXIT_SCENARIOS,
        STAGE_EXIT_ADJUSTMENTS, rat_abs_ite]
  rw [h]
  norm_num

/-! ### Waterfall monotonicity machinery (C2, shared with the C3 analysis) -/

lemma sum_ownership_nonneg (L : List PreferredRound) (hL : ∀ r ∈ L, RoundNonneg r) :
    0 ≤ (L.map PreferredRound.ownershipPercent).sum := by
  apply List.sum_nonneg
  intro x hx
  obtain ⟨r, hr, hxr⟩ := List.mem_map.mp hx
  rw [← hxr]
  exact (hL r hr).1

lemma ownership_le_sum (L : List PreferredRound) (hL : ∀ r ∈ L, RoundNonneg r)
    (r : PreferredRound) (hr : r ∈ L) :
    r.ownershipPercent ≤ (L.map PreferredRound.ownershipPercent).sum := by
  apply List.single_le_sum
  · intro x hx
    obtain ⟨s, hs, hxs⟩ := List.mem_map.mp hx
    rw [← hxs]
    exact (hL s hs).1
  · exact List.mem_map_of_mem PreferredRound.ownershipPercent hr

lemma pass1Amount_nonneg (V : ℚ) (r : PreferredRound) (hr : RoundNonneg r) :
    0 ≤ pass1Amount V r := by
  have hpref : 0 ≤ r.investedAmount * r.liquidationMultiple := mul_nonneg hr.2.1 hr.2.2
  cases hty : r.preferredType <;> simp only [pass1Amount, hty]
  · exact le_trans hpref (le_max_left _ _)
  · exact hpref

lemma pass1Rem_zero (V : ℚ) (r : PreferredRound) (hr : RoundNonneg r) :
    pass1Rem V 0 r = 0 := by
  unfold pass1Rem
  rw [min_eq_left (pass1Amount_nonneg V r hr)]
  ring

lemma pass1Amount_mono (V1 V2 : ℚ) (r : PreferredRound) (hρ : 0 ≤ r.ownershipPercent)
    (hV : V1 ≤ V2) :
    pass1Amount V2 r - pass1Amount V1 r ≤ r.ownershipPercent / 100 * (V2 - V1) := by
  have hd : 0 ≤ r.ownershipPercent / 100 * (V2 - V1) :=
    mul_nonneg (div_nonneg hρ (by norm_num)) (by linarith)
  cases hty : r.preferredType <;> simp only [pass1Amount, hty]
  · have hml : r.investedAmount * r.liquidationMultiple
        ≤ max (r.investedAmount * r.liquidationMultiple) (r.ownershipPercent / 100 * V1) :=
      le_max_left _ _
    have hmr : r.ownershipPercent / 100 * V1
        ≤ max (r.investedAmount * r.liquidationMultiple) (r.ownershipPercent / 100 * V1) :=
      le_max_right _ _
    have hbound : max (r.investedAmount * r.liquidationMultiple) (r.ownershipPercent / 100 * V2)
        ≤ max (r.investedAmount * r.liquidationMultiple) (r.ownershipPercent / 100 * V1)
          + r.ownershipPercent / 100 * (V2 - V1) := by
      apply max_le
      · linarith
      · have hsplit : r.ownershipPercent / 100 * V2
            = r.ownershipPercent / 100 * V1 + r.ownershipPercent / 100 * (V2 - V1) := by
          ring
        linarith
    linarith
  · linarith

/-- The first-pass invariant: along the fold, either the two remaining values
at exit valuations `V1 ≤ V2` stay separated by the pro-rata slope of the
rounds still to process, or the smaller run has already hit zero (an
absorbing state).  Either way the final remaining values are ordered. -/
lemma pass1_fold_mono (V1 V2 : ℚ) (hV : V1 ≤ V2) :
    ∀ (L : List PreferredRound) (r1 r2 : ℚ),
      (∀ r ∈ L, RoundNonneg r) →
      ((V2 - V1) * ((L.map PreferredRound.ownershipPercent).sum / 100) ≤ r2 - r1
        ∨ (r1 = 0 ∧ 0 ≤ r2)) →
      L.foldl (pass1Rem V1) r1 ≤ L.foldl (pass1Rem V2) r2 := by
  intro L
  induction L with
  | nil =>
    intro r1 r2 _ hinv
    rcases hinv with h | ⟨h1, h2⟩
    · simp only [List.map_nil, List.sum_nil, zero_div, mul_zero] at h
      simpa using by linarith
    · simp only [List.foldl_nil]
      rw [h1]
      exact h2
  | cons r T ih =>
    intro r1 r2 hL hinv
    have hrr : RoundNonneg r := hL r (List.mem_cons_self r T)
    have hT : ∀ x ∈ T, RoundNonneg x := fun x hx => hL x (List.mem_cons_of_mem r hx)
    have hsT : 0 ≤ (T.map PreferredRound.ownershipPercent).sum := sum_ownership_nonneg T hT
    have hdsT : 0 ≤ (V2 - V1) * ((T.map PreferredRound.ownershipPercent).sum / 100) :=
      mul_nonneg (by linarith) (div_nonneg hsT (by norm_num))
    rw [List.foldl_cons, List.foldl_cons]
    rcases hinv with h | ⟨h1, h2⟩
    · by_cases hcap : r1 ≤ pass1Amount V1 r
      · -- the smaller run is fully consumed by this round: absorbing case
        have hnew1 : pass1Rem V1 r1 r = 0 := by
          unfold pass1Rem
          rw [min_eq_left hcap]
          ring
        refine ih _ _ hT (Or.inr ⟨hnew1, pass1Rem_nonneg V2 r2 r⟩)
      · push_neg at hcap
        have hm : pass1Amount V2 r - pass1Amount V1 r
            ≤ r.ownershipPercent / 100 * (V2 - V1) := pass1Amount_mono V1 V2 r hrr.1 hV
        have hsum : ((r :: T).map PreferredRound.ownershipPercent).sum
            = r.ownershipPercent + (T.map PreferredRound.ownershipPercent).sum := by
          rw [List.map_cons, List.sum_cons]
        rw [hsum] at h
        have hsep : (V2 - V1) * ((T.map PreferredRound.ownershipPercent).sum / 100)
            ≤ (r2 - pass1Amount V2 r) - (r1 - pass1Amount V1 r) := by
          have hexp : (V2 - V1) * ((r.ownershipPercent
              + (T.map PreferredRound.ownershipPercent).sum) / 100)
              = r.ownershipPercent / 100 * (V2 - V1)
                + (V2 - V1) * ((T.map PreferredRound.ownershipPercent).sum / 100) := by
            ring
          rw [hexp] at h
          linarith
        have hcap2 : pass1Amount V2 r < r2 := by linarith
        have hnew1 : pass1Rem V1 r1 r = r1 - pass1Amount V1 r := by
          unfold pass1Rem
          rw [min_eq_right (le_of_lt hcap)]
        have hnew2 : pass1Rem V2 r2 r = r2 - pass1Amount V2 r := by
          unfold pass1Rem
          rw [min_eq_right (le_of_lt hcap2)]
        refine ih _ _ hT (Or.inl ?_)
        rw [hnew1, hnew2]
        linarith
    · have hnew1 : pass1Rem V1 r1 r = 0 := by
        rw [h1]
        exact pass1Rem_zero V1 r hrr
      exact ih _ _ hT (Or.inr ⟨hnew1, pass1Rem_nonneg V2 r2 r⟩)

lemma pass2Rem_mono (r1 r2 : ℚ) (r : PreferredRound) (hρ0 : 0 ≤ r.ownershipPercent)
    (hρ100 : r.ownershipPercent ≤ 100) (h0 : 0 ≤ r1) (h12 : r1 ≤ r2) :
    pass2Rem r1 r ≤ pass2Rem r2 r ∧ 0 ≤ pass2Rem r1 r := by
  have hfac : 0 ≤ 1 - r.ownershipPercent / 100 := by linarith
  unfold pass2Rem
  by_cases hty : r.preferredType = PreferredType.participating
  · by_cases h1 : 0 < r1
    · have h2 : 0 < r2 := lt_of_lt_of_le h1 h12
      rw [if_pos ⟨hty, h1⟩, if_pos ⟨hty, h2⟩]
      constructor
      · have e1 : r1 - r.ownershipPercent / 100 * r1 = r1 * (1 - r.ownershipPercent / 100) := by
          ring
        have e2 : r2 - r.ownershipPercent / 100 * r2 = r2 * (1 - r.ownershipPercent / 100) := by
          ring
        rw [e1, e2]
        exact mul_le_mul_of_nonneg_right h12 hfac
      · nlinarith
    · have h1' : r1 = 0 := le_antisymm (not_lt.mp h1) h0
      rw [if_neg (fun hc => h1 hc.2)]
      by_cases h2 : 0 < r2
      · rw [if_pos ⟨hty, h2⟩, h1']
        constructor
        · nlinarith
        · norm_num
      · rw [if_neg (fun hc => h2 hc.2)]
        exact ⟨h12, h0⟩
  · rw [if_neg (fun hc => hty hc.1), if_neg (fun hc => hty hc.1)]
    exact ⟨h12, h0⟩

lemma pass2_fold_mono (L : List PreferredRound)
    (hL : ∀ r ∈ L, 0 ≤ r.ownershipPercent ∧ r.ownershipPercent ≤ 100)
    (r1 r2 : ℚ) (h0 : 0 ≤ r1) (h12 : r1 ≤ r2) :
    L.foldl pass2Rem r1 ≤ L.foldl pass2Rem r2 := by
  induction L generalizing r1 r2 with
  | nil => simpa using h12
  | cons r T ih =>
    obtain ⟨hm, hn⟩ := pass2Rem_mono r1 r2 r (hL r (List.mem_cons_self r T)).1
      (hL r (List.mem_cons_self r T)).2 h0 h12
    rw [List.foldl_cons, List.foldl_cons]
    exact ih (fun x hx => hL x (List.mem_cons_of_mem r hx)) _ _ hn hm

lemma foldl_pass1Rem_nonneg_of_ne_nil (V : ℚ) (L : List PreferredRound) (hne : L ≠ [])
    (rem : ℚ) : 0 ≤ L.foldl (pass1Rem V) rem := by
  cases L with
  | nil => exact absurd rfl hne
  | cons r T =>
    rw [List.foldl_cons]
    exact foldl_pass1Rem_nonneg V T _ (pass1Rem_nonneg V rem r)

/-- Monotonicity of the employee payout in the exit valuation, for
nonnegative round parameters and nonnegative employee ownership. -/
lemma employeePayout_mono (rounds : List PreferredRound) (own V1 V2 : ℚ)
    (hr : ∀ r ∈ rounds, RoundNonneg r) (hown : 0 ≤ own) (hV : V1 ≤ V2) :
    (calculateWaterfall V1 rounds own).employeePayout
      ≤ (calculateWaterfall V2 rounds own).employeePayout := by
  by_cases hlen : rounds.length = 0
  · simp only [calculateWaterfall, hlen, if_pos, if_true]
    exact mul_le_mul_of_nonneg_left hV (div_nonneg hown (by norm_num))
  · have hne : rounds.reverse ≠ [] := by
      intro hc
      exact hlen (by simpa using congrArg List.length hc)
    have hrrev : ∀ r ∈ rounds.reverse, RoundNonneg r := by
      intro r hr'
      exact hr r (List.mem_reverse.mp hr')
    have hsumrev : (rounds.reverse.map PreferredRound.ownershipPercent).sum
        = (rounds.map PreferredRound.ownershipPercent).sum := by
      rw [List.map_reverse, List.sum_reverse]
    have hpay : ∀ W : ℚ, (calculateWaterfall W rounds own).employeePayout
        = employeeOwnershipOfCommonOf rounds own / 100
          * max 0 (rounds.reverse.foldl pass2Rem (rounds.reverse.foldl (pass1Rem W) W)) := by
      intro W
      simp only [calculateWaterfall, hlen, if_false]
      rw [foldl_secondPass_fst, foldl_firstPass_fst]
    rw [hpay V1, hpay V2]
    by_cases htc : 0 < 100 - totalPreferredOwnership rounds
    · have hSlt : (rounds.map PreferredRound.ownershipPercent).sum < 100 := by
        unfold totalPreferredOwnership at htc
        linarith
      have hsall : (rounds.reverse.map PreferredRound.ownershipPercent).sum / 100 ≤ 1 := by
        rw [hsumrev]
        linarith
      have hinit : (V2 - V1) * ((rounds.reverse.map PreferredRound.ownershipPercent).sum / 100)
          ≤ V2 - V1 := by
        have hs0 : 0 ≤ (rounds.reverse.map PreferredRound.ownershipPercent).sum / 100 :=
          div_nonneg (sum_ownership_nonneg _ hrrev) (by norm_num)
        nlinarith
      have h1 : rounds.reverse.foldl (pass1Rem V1) V1 ≤ rounds.reverse.foldl (pass1Rem V2) V2 :=
        pass1_fold_mono V1 V2 hV rounds.reverse V1 V2 hrrev (Or.inl (by linarith))
      have h1n : 0 ≤ rounds.reverse.foldl (pass1Rem V1) V1 :=
        foldl_pass1Rem_nonneg_of_ne_nil V1 rounds.reverse hne V1
      have hρboth : ∀ r ∈ rounds.reverse, 0 ≤ r.ownershipPercent ∧ r.ownershipPercent ≤ 100 := by
        intro r hr'
        refine ⟨(hrrev r hr').1, ?_⟩
        calc r.ownershipPercent
            ≤ (rounds.map PreferredRound.ownershipPercent).sum :=
              ownership_le_sum rounds hr r (List.mem_reverse.mp hr')
          _ ≤ 100 := le_of_lt hSlt
      have h2 : rounds.reverse.foldl pass2Rem (rounds.reverse.foldl (pass1Rem V1) V1)
          ≤ rounds.reverse.foldl pass2Rem (rounds.reverse.foldl (pass1Rem V2) V2) :=
        pass2_fold_mono rounds.reverse hρboth _ _ h1n h1
      have heoc : 0 ≤ employeeOwnershipOfCommonOf rounds own := by
        unfold employeeOwnershipOfCommonOf
        rw [if_pos htc]
        exact mul_nonneg (div_nonneg hown (by linarith)) (by norm_num)
      exact mul_le_mul_of_nonneg_left (max_le_max le_rfl h2)
        (div_nonneg heoc (by norm_num))
    · have heoc : employeeOwnershipOfCommonOf rounds own = 0 := by
        unfold employeeOwnershipOfCommonOf
        rw [if_neg htc]
      rw [heoc]
      simp

/-! ### C2: employee payout monotone in exit valuation -/

/-- C2 (amended): for rounds with nonnegative `ownershipPercent`,
`investedAmount` and `liquidationMultiple`, and nonnegative
`employeeOwnershipPercent`, the employee payout is non-decreasing in the exit
valuation. -/
theorem employeePayout_monotone (rounds : List PreferredRound) (own V1 V2 : ℚ)
    (hr : ∀ r ∈ rounds, 0 ≤ r.ownershipPercent ∧ 0 ≤ r.investedAmount
      ∧ 0 ≤ r.liquidationMultiple)
    (hown : 0 ≤ own) (hV : V1 ≤ V2) :
    (calculateWaterfall V1 rounds own).employeePayout
      ≤ (calculateWaterfall V2 rounds own).employeePayout :=
  employeePayout_mono rounds own V1 V2 hr hown hV

/-- C2 witness: monotonicity at a concrete round list, ownership and pair of
exit valuations. -/
theorem employeePayout_monotone_witness :
    ((∀ r ∈ [PreferredRound.mk "r1" "Series A" 10000000 1
          PreferredType.nonParticipating 20],
        0 ≤ r.ownershipPercent ∧ 0 ≤ r.investedAmount ∧ 0 ≤ r.liquidationMultiple)
      ∧ (0:ℚ) ≤ 1/10 ∧ (20000000:ℚ) ≤ 40000000)
      ∧ (calculateWaterfall 20000000
          [PreferredRound.mk "r1" "Series A" 10000000 1 PreferredType.nonParticipating 20]
          (1/10)).employeePayout
        ≤ (calculateWaterfall 40000000
          [PreferredRound.mk "r1" "Series A" 10000000 1 PreferredType.nonParticipating 20]
          (1/10)).employeePayout := by
  have hrounds : ∀ r ∈ [PreferredRound.mk "r1" "Series A" 10000000 1
      PreferredType.nonParticipating 20],
      0 ≤ r.ownershipPercent ∧ 0 ≤ r.investedAmount ∧ 0 ≤ r.liquidationMultiple := by
    intro r hr
    rw [List.mem_singleton] at hr
    rw [hr]
    norm_num
  exact ⟨⟨hrounds, by norm_num, by norm_num⟩,
    employeePayout_monotone _ (1/10) 20000000 40000000 hrounds (by norm_num) (by norm_num)⟩

/-- C2 counterexample: the claim's "every employeeOwnershipPercent" and
"every fixed list of preferred rounds" fail.  With negative employee
ownership the payout strictly decreases as the exit grows (first conjunct);
and even with positive employee ownership, a round list containing a negative
invested amount and negative ownership makes the payout decrease between
exits 1250 and 1300 (second conjunct). -/
theorem employeePayout_monotone_counterexample :
    (calculateWaterfall 100
        [PreferredRound.mk "r1" "Series A" 0 1 PreferredType.nonParticipating 20]
        (-10)).employeePayout
      < (calculateWaterfall 0
        [PreferredRound.mk "r1" "Series A" 0 1 PreferredType.nonParticipating 20]
        (-10)).employeePayout
    ∧ (calculateWaterfall 1300
        [PreferredRound.mk "rA" "Series A" 0 1 PreferredType.nonParticipating 170,
         PreferredRound.mk "rB" "Series B" (-1000) 1 PreferredType.nonParticipating (-80)]
        1).employeePayout
      < (calculateWaterfall 1250
        [PreferredRound.mk "rA" "Series A" 0 1 PreferredType.nonParticipating 170,
         PreferredRound.mk "rB" "Series B" (-1000) 1 PreferredType.nonParticipating (-80)]
        1).employeePayout := by
  constructor <;>
    norm_num +decide [calculateWaterfall, firstPassStep, secondPassStep,
      employeeOwnershipOfCommonOf, totalPreferredOwnership, min_def, max_def]

/-! ### Inverse solver: termination (C5) and round trip (C3) -/

lemma employeePayout_nonneg (V : ℚ) (rounds : List PreferredRound) (own : ℚ)
    (hlen : ¬ rounds.length = 0) (hown : 0 ≤ own) :
    0 ≤ (calculateWaterfall V rounds own).employeePayout := by
  have heoc : 0 ≤ employeeOwnershipOfCommonOf rounds own := by
    simp only [employeeOwnershipOfCommonOf]
    split_ifs with h
    · exact mul_nonneg (div_nonneg hown (by linarith)) (by norm_num)
    · exact le_refl 0
  simp only [calculateWaterfall, hlen, if_false]
  exact mul_nonneg (div_nonneg heoc (by norm_num)) (le_max_left 0 _)

lemma growHigh_of_not_lt (t : ℚ) (rounds : List PreferredRound) (own : ℚ) (n : ℕ) (high : ℚ)
    (h : ¬ (calculateWaterfall high rounds own).employeePayout < t) :
    growHigh t rounds own (n + 1) high = some high := by
  simp [growHigh, h]

lemma growHigh_isSome (t : ℚ) (rounds : List PreferredRound) (own : ℚ) :
    ∀ (n : ℕ) (high : ℚ), 0 < high → SEARCH_CAP < high * 2 ^ n →
      (growHigh t rounds own (n + 1) high).isSome = true := by
  intro n
  induction n with
  | zero =>
    intro high hpos hcap
    rw [pow_zero, mul_one] at hcap
    by_cases h1 : (calculateWaterfall high rounds own).employeePayout < t
    · have h2 : SEARCH_CAP < high * 2 := by linarith
      simp [growHigh, h1, h2]
    · simp [growHigh, h1]
  | succ n ih =>
    intro high hpos hcap
    by_cases h1 : (calculateWaterfall high rounds own).employeePayout < t
    · by_cases h2 : SEARCH_CAP < high * 2
      · simp [growHigh, h1, h2]
      · have hrec := ih (high * 2) (by linarith) (by
          have heq : high * 2 * 2 ^ n = high * 2 ^ (n + 1) := by ring
          rw [heq]
          exact hcap)
        simp only [growHigh, if_pos h1, if_neg h2]
        exact hrec
    · simp [growHigh, h1]

lemma growHighFuel_spec (high : ℚ) (hpos : 0 < high) :
    SEARCH_CAP < high * 2 ^ (growHighFuel high - 1) := by
  have hm : SEARCH_CAP / high ≤ (Nat.ceil (SEARCH_CAP / high) : ℚ) := Nat.le_ceil _
  have hfe : growHighFuel high - 1 = Nat.clog 2 (Nat.ceil (SEARCH_CAP / high) + 2) := by
    unfold growHighFuel
    omega
  rw [hfe]
  have hpow : Nat.ceil (SEARCH_CAP / high) + 2
      ≤ 2 ^ Nat.clog 2 (Nat.ceil (SEARCH_CAP / high) + 2) :=
    Nat.le_pow_clog (by norm_num) _
  have hpow2 : ((Nat.ceil (SEARCH_CAP / high) : ℚ) + 2)
      ≤ (2 : ℚ) ^ Nat.clog 2 (Nat.ceil (SEARCH_CAP / high) + 2) := by
    exact_mod_cast hpow
  have hdiv : high * (SEARCH_CAP / high) = SEARCH_CAP := by
    field_simp
  calc SEARCH_CAP = high * (SEARCH_CAP / high) := hdiv.symm
    _ ≤ high * (Nat.ceil (SEARCH_CAP / high) : ℚ) := mul_le_mul_of_nonneg_left hm hpos.le
    _ < high * ((Nat.ceil (SEARCH_CAP / high) : ℚ) + 2) := by nlinarith
    _ ≤ high * (2 : ℚ) ^ Nat.clog 2 (Nat.ceil (SEARCH_CAP / high) + 2) :=
        mul_le_mul_of_nonneg_left hpow2 hpos.le

lemma growHighFuel_succ (high : ℚ) : growHighFuel high - 1 + 1 = growHighFuel high := by
  unfold growHighFuel
  omega

lemma findExit_eq_closed (t : ℚ) (rounds : List PreferredRound) (own : ℚ)
    (hguard : rounds.length = 0 ∨ own ≤ 0) :
    findExitForTargetPayout t rounds own
      = some (if 0 < own then t / (own / 100) else 0) := by
  unfold findExitForTargetPayout
  rw [if_pos hguard]

lemma findExit_eq_of_grow (t : ℚ) (rounds : List PreferredRound) (own : ℚ)
    (hguard : ¬ (rounds.length = 0 ∨ own ≤ 0)) (g : ℚ)
    (hg : growHigh t rounds own (growHighFuel (t * 100)) (t * 100) = some g) :
    findExitForTargetPayout t rounds own = some (bsearchExit t rounds own 0 g) := by
  simp only [findExitForTargetPayout, hg, if_neg hguard]

/-- C5: for every `targetPayout ≥ 0`, arbitrary preferred rounds and
arbitrary ownership, `findExitForTargetPayout` terminates with a value: the
doubling of the upper bound is capped at 1e15, and past the cap the search
proceeds with the capped value instead of looping. -/
theorem findExitForTargetPayout_isSome (targetPayout : ℚ) (rounds : List PreferredRound)
    (own : ℚ) (htarget : 0 ≤ targetPayout) :
    (findExitForTargetPayout targetPayout rounds own).isSome = true := by
  by_cases hguard : rounds.length = 0 ∨ own ≤ 0
  · rw [findExit_eq_closed _ _ _ hguard]
    rfl
  · have hng := hguard
    rw [not_or] at hng
    obtain ⟨hlen, hle⟩ := hng
    have hown : 0 < own := not_le.mp hle
    have hsome : (growHigh targetPayout rounds own (growHighFuel (targetPayout * 100))
        (targetPayout * 100)).isSome = true := by
      rcases eq_or_lt_of_le htarget with h0 | hpos
      · have hnot : ¬ (calculateWaterfall (targetPayout * 100) rounds own).employeePayout
            < targetPayout := by
          rw [← h0]
          exact not_lt.mpr (employeePayout_nonneg _ rounds own hlen hown.le)
        rw [← growHighFuel_succ (targetPayout * 100),
          growHigh_of_not_lt _ rounds own _ _ hnot]
        rfl
      · have hh : 0 < targetPayout * 100 := by linarith
        rw [← growHighFuel_succ (targetPayout * 100)]
        exact growHigh_isSome targetPayout rounds own _ _ hh (growHighFuel_spec _ hh)
    obtain ⟨g, hg⟩ := Option.isSome_iff_exists.mp hsome
    rw [findExit_eq_of_grow _ _ _ hguard g hg]
    rfl

/-- C5 witness: termination at a concrete nonnegative target. -/
theorem findExitForTargetPayout_isSome_witness :
    ((0:ℚ) ≤ 5)
      ∧ (findExitForTargetPayout 5
          [PreferredRound.mk "r1" "Series A" 10000000 1 PreferredType.nonParticipating 20]
          10).isSome = true :=
  ⟨by norm_num, findExitForTargetPayout_isSome 5 _ 10 (by norm_num)⟩

lemma growHigh_result_ge (rounds : List PreferredRound) (own V : ℚ)
    (hsep : ∀ x : ℚ, 0 ≤ x → x < V →
      (calculateWaterfall x rounds own).employeePayout
        < (calculateWaterfall V rounds own).employeePayout)
    (hVcap : V ≤ SEARCH_CAP) :
    ∀ (n : ℕ) (high g : ℚ), 0 ≤ high →
      growHigh ((calculateWaterfall V rounds own).employeePayout) rounds own n high = some g →
      V ≤ g ∧ 0 ≤ g := by
  intro n
  induction n with
  | zero =>
    intro high g _ hg
    exact absurd hg (by simp [growHigh])
  | succ n ih =>
    intro high g hh hg
    by_cases h1 : (calculateWaterfall high rounds own).employeePayout
        < (calculateWaterfall V rounds own).employeePayout
    · by_cases h2 : SEARCH_CAP < high * 2
      · simp only [growHigh, if_pos h1, if_pos h2, Option.some_inj] at hg
        subst hg
        exact ⟨by linarith, by linarith⟩
      · simp only [growHigh, if_pos h1, if_neg h2] at hg
        exact ih (high * 2) g (by linarith) hg
    · simp only [growHigh, if_neg h1, Option.some_inj] at hg
      subst hg
      refine ⟨?_, hh⟩
      by_contra hlt
      push_neg at hlt
      exact h1 (hsep high hh hlt)

lemma bsearchExit_of_not_gt (t : ℚ) (rounds : List PreferredRound) (own low high : ℚ)
    (h : ¬ 1000 < high - low) :
    bsearchExit t rounds own low high = high := by
  rw [bsearchExit]
  exact dif_neg h

/-- The binary search keeps `V` inside `[low, high]` and returns a value in
`[V, V + 1000]`, given that the payout is monotone and strictly separates `V`
from below. -/
lemma bsearchExit_close (rounds : List PreferredRound) (own V : ℚ)
    (hr : ∀ r ∈ rounds, RoundNonneg r) (hown : 0 < own)
    (hsep : ∀ x : ℚ, 0 ≤ x → x < V →
      (calculateWaterfall x rounds own).employeePayout
        < (calculateWaterfall V rounds own).employeePayout) :
    ∀ (n : ℕ) (low high : ℚ), Nat.ceil ((high - low) / 1000) ≤ n →
      0 ≤ low → low ≤ V → V ≤ high →
      V ≤ bsearchExit ((calculateWaterfall V rounds own).employeePayout) rounds own low high
        ∧ bsearchExit ((calculateWaterfall V rounds own).employeePayout) rounds own low high
          ≤ V + 1000 := by
  intro n
  induction n with
  | zero =>
    intro low high hn h0 hlV hVh
    have hw : ¬ 1000 < high - low := by
      intro hc
      have h1 : (1 : ℚ) < (high - low) / 1000 := by
        rw [lt_div_iff₀ (by norm_num : (0:ℚ) < 1000)]
        linarith
      have h2 : 1 < Nat.ceil ((high - low) / 1000) :=
        (Nat.lt_ceil (n := 1) (a := (high - low) / 1000)).mpr (by exact_mod_cast h1)
      omega
    rw [bsearchExit_of_not_gt _ rounds own low high hw]
    exact ⟨hVh, by linarith⟩
  | succ n ih =>
    intro low high hn h0 hlV hVh
    by_cases hw : 1000 < high - low
    · have hmid0 : 0 ≤ (low + high) / 2 := by
        have hV0 : 0 ≤ V := le_trans h0 hlV
        have hh0 : 0 ≤ high := le_trans hV0 hVh
        positivity
      have hmeas : ∀ w : ℚ, w = (high - low) / 2 →
          Nat.ceil (w / 1000) ≤ n := by
        intro w hweq
        subst hweq
        have := bsearchMeasure_halves low high hw
        omega
      rw [bsearchExit, dif_pos hw]
      by_cases hm : (calculateWaterfall ((low + high) / 2) rounds own).employeePayout
          < (calculateWaterfall V rounds own).employeePayout
      · rw [if_pos hm]
        have hmidV : (low + high) / 2 < V := by
          by_contra hc
          push_neg at hc
          exact absurd (employeePayout_mono rounds own V ((low + high) / 2) hr hown.le hc)
            (not_le.mpr hm)
        exact ih ((low + high) / 2) high (hmeas _ (by ring)) hmid0 (le_of_lt hmidV) hVh
      · rw [if_neg hm]
        have hVmid : V ≤ (low + high) / 2 := by
          by_contra hc
          push_neg at hc
          exact hm (hsep _ hmid0 hc)
        exact ih low ((low + high) / 2) (hmeas _ (by ring)) h0 hlV hVmid
    · rw [bsearchExit_of_not_gt _ rounds own low high hw]
      exact ⟨hVh, by linarith⟩

/-- C3 (amended): the inverse solver recovers `V` to within the 1000-unit
precision for every `V ∈ [0, 1e15]` at which the payout strictly separates
`V` from below (for all `0 ≤ x < V`, `payout(x) < payout(V)`), with positive
employee ownership and nonnegative round parameters.  (On a flat region of
the payout curve — e.g. a valuation below the liquidation preferences, where
the payout is 0 — no inverse can recover `V`; see the counterexample.) -/
theorem findExit_roundtrip (rounds : List PreferredRound) (own V : ℚ)
    (hr : ∀ r ∈ rounds, 0 ≤ r.ownershipPercent ∧ 0 ≤ r.investedAmount
      ∧ 0 ≤ r.liquidationMultiple)
    (hown : 0 < own) (hV0 : 0 ≤ V) (hVcap : V ≤ SEARCH_CAP)
    (hsep : ∀ x : ℚ, 0 ≤ x → x < V →
      (calculateWaterfall x rounds own).employeePayout
        < (calculateWaterfall V rounds own).employeePayout) :
    ∃ g, findExitForTargetPayout ((calculateWaterfall V rounds own).employeePayout) rounds own
        = some g
      ∧ |g - V| ≤ 1000 := by
  by_cases hguard : rounds.length = 0 ∨ own ≤ 0
  · rcases hguard with hlen | hle
    · have hnil : rounds = [] := List.length_eq_zero.mp hlen
      subst hnil
      have hpay : (calculateWaterfall V [] own).employeePayout = own / 100 * V := by
        simp [calculateWaterfall]
      have hneq : own / 100 ≠ 0 := by
        intro hc
        rw [div_eq_zero_iff] at hc
        rcases hc with hc | hc
        · exact absurd hc (ne_of_gt hown)
        · norm_num at hc
      have hval : (if 0 < own
          then (calculateWaterfall V [] own).employeePayout / (own / 100) else 0) = V := by
        rw [if_pos hown, hpay, mul_div_cancel_left₀ V hneq]
      refine ⟨V, ?_, by rw [sub_self, abs_zero]; norm_num⟩
      rw [findExit_eq_closed ((calculateWaterfall V [] own).employeePayout)
        ([] : List PreferredRound) own (Or.inl rfl), hval]
    · exact absurd hown (not_lt.mpr hle)
  · have hng := hguard
    rw [not_or] at hng
    obtain ⟨hlen, hle⟩ := hng
    have htnn : 0 ≤ (calculateWaterfall V rounds own).employeePayout :=
      employeePayout_nonneg V rounds own hlen hown.le
    have hsome : (growHigh ((calculateWaterfall V rounds own).employeePayout) rounds own
        (growHighFuel ((calculateWaterfall V rounds own).employeePayout * 100))
        ((calculateWaterfall V rounds own).employeePayout * 100)).isSome = true := by
      rcases eq_or_lt_of_le htnn with h0 | hpos
      · have hnot : ¬ (calculateWaterfall
            ((calculateWaterfall V rounds own).employeePayout * 100) rounds own).employeePayout
            < (calculateWaterfall V rounds own).employeePayout := by
          rw [← h0]
          exact not_lt.mpr (employeePayout_nonneg _ rounds own hlen hown.le)
        rw [← growHighFuel_succ, growHigh_of_not_lt _ rounds own _ _ hnot]
        rfl
      · have hh : 0 < (calculateWaterfall V rounds own).employeePayout * 100 := by linarith
        rw [← growHighFuel_succ]
        exact growHigh_isSome _ rounds own _ _ hh (growHighFuel_spec _ hh)
    obtain ⟨g, hg⟩ := Option.isSome_iff_exists.mp hsome
    have hge := growHigh_result_ge rounds own V hsep hVcap _ _ g
      (mul_nonneg htnn (by norm_num)) hg
    have hclose := bsearchExit_close rounds own V hr hown hsep
      (Nat.ceil ((g - 0) / 1000)) 0 g le_rfl le_rfl hV0 hge.1
    refine ⟨_, findExit_eq_of_grow _ _ _ hguard g hg, ?_⟩
    rw [abs_le]
    exact ⟨by linarith [hclose.2], by linarith [hclose.1]⟩

/-- C3 witness: the round trip at a concrete strictly-increasing
configuration (no preferred rounds, 10% ownership, exit 500). -/
theorem findExit_roundtrip_witness :
    ((∀ r ∈ ([] : List PreferredRound), 0 ≤ r.ownershipPercent ∧ 0 ≤ r.investedAmount
        ∧ 0 ≤ r.liquidationMultiple)
      ∧ (0:ℚ) < 10 ∧ (0:ℚ) ≤ 500 ∧ (500:ℚ) ≤ SEARCH_CAP
      ∧ (∀ x : ℚ, 0 ≤ x → x < 500 →
          (calculateWaterfall x ([] : List PreferredRound) 10).employeePayout
            < (calculateWaterfall 500 ([] : List PreferredRound) 10).employeePayout))
      ∧ (∃ g, findExitForTargetPayout
            ((calculateWaterfall 500 ([] : List PreferredRound) 10).employeePayout)
            ([] : List PreferredRound) 10 = some g
          ∧ |g - 500| ≤ 1000) := by
  have hsep : ∀ x : ℚ, 0 ≤ x → x < 500 →
      (calculateWaterfall x ([] : List PreferredRound) 10).employeePayout
        < (calculateWaterfall 500 ([] : List PreferredRound) 10).employeePayout := by
    intro x hx hlt
    have h1 : (calculateWaterfall x ([] : List PreferredRound) 10).employeePayout
        = 10 / 100 * x := by
      simp [calculateWaterfall]
    have h2 : (calculateWaterfall 500 ([] : List PreferredRound) 10).employeePayout
        = 10 / 100 * 500 := by
      simp [calculateWaterfall]
    rw [h1, h2]
    linarith
  refine ⟨⟨?_, by norm_num, by norm_num, by norm_num [SEARCH_CAP], hsep⟩, ?_⟩
  · intro r hr
    exact absurd hr (List.not_mem_nil r)
  · exact findExit_roundtrip ([] : List PreferredRound) 10 500
      (fun r hr => absurd hr (List.not_mem_nil r)) (by norm_num) (by norm_num)
      (by norm_num [SEARCH_CAP]) hsep

/-- C3 counterexample: at exit valuation 5,000,000 with a single 1x
non-participating round of invested amount 10,000,000, the employee payout is
0, and the solver maps target 0 back to exit 0: the round trip misses `V` by
5,000,000, far beyond the 1000-unit tolerance. -/
theorem findExit_roundtrip_counterexample :
    (calculateWaterfall 5000000
        [PreferredRound.mk "r1" "Series A" 10000000 1 PreferredType.nonParticipating 20]
        (1/10)).employeePayout = 0
      ∧ findExitForTargetPayout 0
          [PreferredRound.mk "r1" "Series A" 10000000 1 PreferredType.nonParticipating 20]
          (1/10) = some 0
      ∧ ¬ (|(0:ℚ) - 5000000| ≤ 1000) := by
  have hpay0 : (calculateWaterfall ((0:ℚ) * 100)
      [PreferredRound.mk "r1" "Series A" 10000000 1 PreferredType.nonParticipating 20]
      (1/10)).employeePayout = 0 := by
    norm_num +decide [calculateWaterfall, firstPassStep, secondPassStep,
      employeeOwnershipOfCommonOf, totalPreferredOwnership, min_def, max_def]
  refine ⟨?_, ?_, ?_⟩
  · norm_num +decide [calculateWaterfall, firstPassStep, secondPassStep,
      employeeOwnershipOfCommonOf, totalPreferredOwnership, min_def, max_def]
  · have hnot : ¬ (calculateWaterfall ((0:ℚ) * 100)
        [PreferredRound.mk "r1" "Series A" 10000000 1 PreferredType.nonParticipating 20]
        (1/10)).employeePayout < 0 := by
      rw [hpay0]
      norm_num
    have hg : growHigh 0
        [PreferredRound.mk "r1" "Series A" 10000000 1 PreferredType.nonParticipating 20]
        (1/10) (growHighFuel ((0:ℚ) * 100)) ((0:ℚ) * 100) = some ((0:ℚ) * 100) := by
      rw [← growHighFuel_succ ((0:ℚ) * 100)]
      exact growHigh_of_not_lt _ _ _ _ _ hnot
    have heq := findExit_eq_of_grow 0
      [PreferredRound.mk "r1" "Series A" 10000000 1 PreferredType.nonParticipating 20]
      (1/10) (by norm_num) ((0:ℚ) * 100) hg
    rw [heq, bsearchExit_of_not_gt _ _ _ _ _ (by norm_num)]
    norm_num
  · rw [rat_abs_ite]
    norm_num

/-! ### C10: opportunity-cost data points -/

/-- C10: for `timeHorizonYears ≥ 0` the comparison returns exactly
`timeHorizonYears + 1` data points with the i-th point at year `i`, and the
final fields equal those of the last data point; for a negative horizon the
point list is empty and the source's dereference of the last element fails
(modelled as `none`), so the precondition is required for the function to be
defined. -/
theorem opportunityCost_points (cost own cv rate : ℚ) (h : ℤ) :
    (0 ≤ h →
      ∃ res, calculateOpportunityCostComparison cost own cv rate h = some res
        ∧ (res.dataPoints.length : ℤ) = h + 1
        ∧ (∀ (i : ℕ) (hi : i < res.dataPoints.length),
            (res.dataPoints.get ⟨i, hi⟩).year = i)
        ∧ (∃ lastP, res.dataPoints.getLast? = some lastP
            ∧ res.finalAlternativeValue = lastP.alternativeValue
            ∧ res.finalOptionsExpectedValue = lastP.optionsExpectedValue))
    ∧ (h < 0 → calculateOpportunityCostComparison cost own cv rate h = none) := by
  constructor
  · intro hh
    have hlen : (opportunityCostDataPoints cost own cv rate h).length = (h + 1).toNat := by
      simp [opportunityCostDataPoints]
    have hne : opportunityCostDataPoints cost own cv rate h ≠ [] := by
      intro hc
      rw [hc] at hlen
      simp only [List.length_nil] at hlen
      omega
    obtain ⟨p, hp⟩ := Option.isSome_iff_exists.mp (List.getLast?_isSome.mpr hne)
    refine ⟨{ dataPoints := opportunityCostDataPoints cost own cv rate h
              breakEvenYear := ((opportunityCostDataPoints cost own cv rate h).find?
                (fun q => decide (q.alternativeValue - cost < q.optionsExpectedValue))).map
                OpportunityCostDataPoint.year
              finalAlternativeValue := p.alternativeValue
              finalOptionsExpectedValue := p.optionsExpectedValue }, ?_, ?_, ?_, ?_⟩
    · simp only [calculateOpportunityCostComparison, hp]
    · simp only [hlen]
      omega
    · intro i hi
      simp [opportunityCostDataPoints]
    · exact ⟨p, hp, rfl, rfl⟩
  · intro hh
    have hnil : opportunityCostDataPoints cost own cv rate h = [] := by
      unfold opportunityCostDataPoints
      rw [show (h + 1).toNat = 0 from by omega]
      rfl
    simp [calculateOpportunityCostComparison, hnil]

/-- C10 witness: the data-point structure at a concrete three-year horizon. -/
theorem opportunityCost_points_witness :
    ((0:ℤ) ≤ 3)
      ∧ (∃ res, calculateOpportunityCostComparison 100 1 1000 (1/10) 3 = some res
        ∧ (res.dataPoints.length : ℤ) = 3 + 1
        ∧ (∀ (i : ℕ) (hi : i < res.dataPoints.length),
            (res.dataPoints.get ⟨i, hi⟩).year = i)
        ∧ (∃ lastP, res.dataPoints.getLast? = some lastP
            ∧ res.finalAlternativeValue = lastP.alternativeValue
            ∧ res.finalOptionsExpectedValue = lastP.optionsExpectedValue)) :=
  ⟨by norm_num, (opportunityCost_points 100 1 1000 (1/10) 3).1 (by norm_num)⟩

end StartupOptions
